import Mathlib

/-!
Shallow embedding of the price-tracking and alert-notification pipeline of
`price-checker.js` (the `ncmesh-parts-app` batch job), together with proofs of
the specified properties.

Conventions of the embedding:
* JS numbers are modelled as `ℚ` (all prices in scope are exact decimals).
* Timestamps (`new Date().toISOString()`) are modelled as an abstract `Nat`
  supplied as a `now` parameter.
* The network fetch plus HTML extraction for one URL is modelled as an oracle
  `String → FetchOutcome` (the HTML documents themselves are external inputs);
  the raw-markup regex fallback of `extractGenericPrice` is modelled at the
  character level, while the cheerio DOM-selector phase is abstracted as an
  oracle input, since a DOM cannot be embedded shallowly.
* The email-delivery collaborator is modelled as an oracle `Nat → Bool`
  (success per subscription id); attempted sends are collected in a list.
* `parseFloat` applied to a garbage capture (JS `NaN`) is conflated with the
  `null` result, which is only observable on degenerate catalog price strings.
-/

namespace NCMesh

/-- `needle` matches at the head of `hay`. -/
def headMatch : List Char → List Char → Bool
  | [], _ => true
  | _ :: _, [] => false
  | a :: as, b :: bs => a == b && headMatch as bs

/-- `needle` occurs as a contiguous substring of `hay`
(JS `String.prototype.includes`). -/
def substrOf (needle hay : String) : Bool :=
  go needle.data hay.data
where
  go (n : List Char) : List Char → Bool
  | [] => n.isEmpty
  | c :: rest => headMatch n (c :: rest) || go n rest

/-- Hostname of a URL: the characters after `"://"` up to the first `/`, `:`,
`?` or `#`, lower-cased. Returns `none` when there is no scheme separator,
modelling `new URL(url)` throwing on a malformed URL. -/
def hostOf (url : String) : Option String :=
  let cs := url.data
  match hFind cs with
  | none => none
  | some rest =>
    some (String.mk ((rest.takeWhile fun c =>
      !(c = '/' || c = ':' || c = '?' || c = '#')).map Char.toLower))
where
  /-- Scan for the first occurrence of `"://"`, returning what follows it. -/
  hFind : List Char → Option (List Char)
  | ':' :: '/' :: '/' :: rest => some rest
  | _ :: rest => hFind rest
  | [] => none

/-- `detectSource(url)` of `price-checker.js`: classify the marketplace /
storefront family from the URL hostname; malformed URLs are `generic`. -/
def detectSource (url : String) : String :=
  match hostOf url with
  | none => "generic"
  | some host =>
    if substrOf "amazon.com" host then "amazon"
    else if substrOf "seeedstudio.com" host then "seeed"
    else if substrOf "heltec.org" host then "heltec"
    else if substrOf "lilygo.cc" host then "lilygo"
    else if substrOf "rakwireless.com" host then "rakwireless"
    else if substrOf "elecrow.com" host then "elecrow"
    else if substrOf "rokland.com" host then "rokland"
    else if substrOf "uniteng.com" host then "uniteng"
    else if substrOf "muzi.works" host then "muzi"
    else "generic"

/-- A record of `parts.json` (the catalog file): the fields the price checker
reads. `price` is the display string (e.g. `"$36.50"`). -/
structure PartsItem where
  name : String
  price : Option String
  url : Option String
  asin : Option String
deriving Repr, DecidableEq

/-- `shouldSkip(item)`: variant pricing (`"From …"`), Discord links,
contact-only pricing, or no ASIN and no URL. -/
def shouldSkip (item : PartsItem) : Bool :=
  (match item.price with
   | some s => s.startsWith "From"
   | none => false) ||
  (match item.url with
   | some u =>
     match hostOf u with
     | some host => substrOf "discord.com" host || substrOf "discord.gg" host
     | none => false
   | none => false) ||
  (match item.price with
   | some s => substrOf "contact" s.toLower
   | none => false) ||
  (item.asin.isNone && item.url.isNone)

/-- Value of a digit run read left to right. -/
def digitsToNat (ds : List Char) : Nat :=
  ds.foldl (fun n c => 10 * n + (c.toNat - 48)) 0

/-- JS `parseFloat` restricted to the shapes our captures can take:
an optional integer part, an optional `.` and fractional digits; parsing
stops at the first other character. `none` models `NaN`. -/
def parseFloatHead (cs : List Char) : Option ℚ :=
  let ip := cs.takeWhile Char.isDigit
  let rest := cs.dropWhile Char.isDigit
  match rest with
  | '.' :: rest2 =>
    let fp := rest2.takeWhile Char.isDigit
    if ip.isEmpty && fp.isEmpty then none
    else some ((digitsToNat ip : ℚ) + (digitsToNat fp : ℚ) / (10 ^ fp.length))
  | _ => if ip.isEmpty then none else some (digitsToNat ip : ℚ)

/-- JS `String.prototype.replace(',', '')`: removes only the FIRST comma. -/
def removeFirstComma : List Char → List Char
  | [] => []
  | ',' :: rest => rest
  | c :: rest => c :: removeFirstComma rest

/-- Attempt the regex `\$?([\d,]+\.?\d*)` at the head of `cs`; on success
return the captured characters. The greedy match needs no backtracking:
shortening `[\d,]+` leaves a digit or comma next, never the required `.`. -/
def matchLoosePriceAt (cs : List Char) : Option (List Char) :=
  let cs1 := match cs with
    | '$' :: rest => rest
    | _ => cs
  let run := cs1.takeWhile fun c => c.isDigit || c = ','
  let rest1 := cs1.dropWhile fun c => c.isDigit || c = ','
  if run.isEmpty then none
  else
    match rest1 with
    | '.' :: rest2 => some (run ++ '.' :: rest2.takeWhile Char.isDigit)
    | _ => some run

/-- First match of `\$?([\d,]+\.?\d*)` anywhere in the string
(JS `String.prototype.match` without the global flag). -/
def findLoosePrice : List Char → Option (List Char)
  | [] => none
  | c :: rest =>
    match matchLoosePriceAt (c :: rest) with
    | some cap => some cap
    | none => findLoosePrice rest

/-- `parsePartsPrice(priceStr)`: parse a catalog display string such as
`"$36.50"` into a number, or `none`. -/
def parsePartsPrice : Option String → Option ℚ
  | none => none
  | some s =>
    match findLoosePrice s.data with
    | some cap => parseFloatHead (removeFirstComma cap)
    | none => none

/-- Digits of `n` zero-padded to two places, as in `toFixed(2)` output. -/
def twoDigits (n : Int) : String :=
  if n < 10 then "0" ++ toString n else toString n

/-- JS `Number.prototype.toFixed(2)` for the non-negative exact decimals in
scope: round half up to cents and print with two decimals. -/
def toFixed2 (q : ℚ) : String :=
  let cents : Int := ⌊q * 100 + 1 / 2⌋
  toString (cents / 100) ++ "." ++ twoDigits (cents % 100)

/-- `formatPartsPrice(price)`: all three source branches produce the same
`` `$${price.toFixed(2)}` `` string. -/
def formatPartsPrice (price : ℚ) : String :=
  if price ≥ 100 then "$" ++ toFixed2 price
  else if price.den = 1 then "$" ++ toFixed2 price
  else "$" ++ toFixed2 price

/-- `AFFILIATE_TAG` constant. -/
def AFFILIATE_TAG : String := "dpaschal26-20"

/-- `buildUrl(item)`: the item's URL, else the Amazon product URL from its
ASIN, else `none`. -/
def buildUrl (item : PartsItem) : Option String :=
  match item.url with
  | some u => some u
  | none =>
    match item.asin with
    | some a => some ("https://www.amazon.com/dp/" ++ a ++ "?tag=" ++ AFFILIATE_TAG)
    | none => none

/-- An entry of the per-run worklist, which is also the record shape written
to `prices.json` (the price-history file). `pct` models the `_pctChange`
field attached dynamically when a change is detected. -/
structure WorkEntry where
  name : String
  price : ℚ
  priceDisplay : String
  url : String
  source : String
  asin : Option String
  lastChecked : Option Nat
  lastChanged : Option Nat
  pct : Option ℚ := none
deriving Repr, DecidableEq

/-- The `prices.json` file contents: product history records plus the
run-completion timestamp. -/
structure HistoryFile where
  products : List WorkEntry
  lastRun : Option Nat
deriving Repr, DecidableEq

/-- The JS object `priceHistory` keyed by ASIN-or-URL. Later entries
overwrite earlier ones, so we prepend and look up the first hit. -/
def historyIndex (ps : List WorkEntry) : List (String × WorkEntry) :=
  ps.foldl (fun m p =>
    let key := p.asin.getD p.url
    if key = "" then m else (key, p) :: m) []

/-- `buildProductList(partsData, existingPrices)`: the worklist, merging the
catalog with the price history; history wins for `price`/`priceDisplay`/
`lastChecked`/`lastChanged` when the item's key is present. -/
def buildProductList (partsData : List PartsItem) (existingPrices : HistoryFile) :
    List WorkEntry :=
  let priceHistory := historyIndex existingPrices.products
  partsData.filterMap fun item =>
    if shouldSkip item then none
    else
      match buildUrl item with
      | none => none
      | some url =>
        let source := match item.asin with
          | some _ => "amazon"
          | none => detectSource url
        let key := item.asin.getD url
        let existing := priceHistory.lookup key
        match parsePartsPrice item.price with
        | none => none
        | some price =>
          some
            { name := item.name
              price := match existing with
                | some e => e.price
                | none => price
              priceDisplay := match existing with
                | some e => e.priceDisplay
                | none => item.price.getD ""
              url := url
              source := source
              asin := item.asin
              lastChecked := existing.bind (·.lastChecked)
              lastChanged := existing.bind (·.lastChanged) }

/-- Attempt the regex `\$\s*([\d,]+\.\d{2})` at the head of `cs`; on success
return the parsed capture (after first-comma removal, as the source does) and
the remainder of the input after the match. As with the loose pattern, the
greedy `[\d,]+` needs no backtracking because a shorter run is still followed
by a digit or comma, never by the required `.`. -/
def matchCurrencyAt (cs : List Char) : Option (ℚ × List Char) :=
  match cs with
  | '$' :: rest =>
    let ws := fun c : Char => c = ' ' || c = '\t' || c = '\n' || c = '\r'
    let rest1 := rest.dropWhile ws
    let run := rest1.takeWhile fun c => c.isDigit || c = ','
    let rest2 := rest1.dropWhile fun c => c.isDigit || c = ','
    if run.isEmpty then none
    else
      match rest2 with
      | '.' :: d1 :: d2 :: rest3 =>
        if d1.isDigit && d2.isDigit then
          match parseFloatHead (removeFirstComma (run ++ ['.', d1, d2])) with
          | some v => some (v, rest3)
          | none => none
        else none
      | _ => none
  | _ => none

/-- All matches of `\$\s*([\d,]+\.\d{2})` scanning left to right, resuming
after each match (JS `String.prototype.matchAll`). Fueled by the input
length, which bounds the number of scanning steps. -/
def scanCurrency (cs : List Char) : List ℚ :=
  go cs.length cs
where
  go : Nat → List Char → List ℚ
  | 0, _ => []
  | _ + 1, [] => []
  | fuel + 1, c :: rest =>
    match matchCurrencyAt (c :: rest) with
    | some (v, rest') => v :: go fuel rest'
    | none => go fuel rest

/-- The raw-markup fallback of `extractGenericPrice`: collect every currency
token, keep the plausible retail range `5 < p < 500` (exclusive), and return
the minimum; `none` when no token is in range. -/
def genericFallback (html : String) : Option ℚ :=
  let prices := (scanCurrency html.data).filter fun p =>
    decide (5 < p) && decide (p < 500)
  match prices with
  | [] => none
  | p :: ps => some (ps.foldl min p)

/-- `extractGenericPrice(html)`. The cheerio selector loop over
`.price`, `.product-price`, … cannot be embedded (it queries a DOM), so its
outcome is the oracle argument `selPhase`: `some v` when some structured
selector matched and parsed to `v`, `none` when no selector matched. The
regex fallback over the raw markup is modelled exactly. -/
def extractGenericPrice (selPhase : Option ℚ) (html : String) : Option ℚ :=
  match selPhase with
  | some v => some v
  | none => genericFallback html

/-- A row of the `price_alerts` table (a subscription). -/
structure Alert where
  id : Nat
  product_id : String
  email : String
  threshold_pct : ℚ
  created_at : Option Nat := none
  last_notified : Option Nat := none
  active : Bool := true
  unsubscribe_token : String := ""
deriving Repr, DecidableEq

/-- One attempted alert email: which subscription it went to and the
payload fields derived from the price drop. -/
structure Email where
  alertId : Nat
  toAddr : String
  productName : String
  oldPrice : ℚ
  newPrice : ℚ
  pctDrop : ℚ
  buyUrl : String
deriving Repr, DecidableEq

/-- Result of the notification step: the subscription table after any
`last_notified` updates, the attempted emails in order, and the count of
successful sends. -/
structure NotifyResult where
  db : List Alert
  attempted : List Email
  sent : Nat
deriving Repr, DecidableEq

/-- The query `SELECT * FROM price_alerts WHERE product_id = ? AND active = 1
AND threshold_pct <= ?`. -/
def matchingSubs (db : List Alert) (productId : String) (pctDrop : ℚ) : List Alert :=
  db.filter fun a =>
    a.product_id == productId && a.active && decide (a.threshold_pct ≤ pctDrop)

/-- `UPDATE price_alerts SET last_notified = datetime('now') WHERE id = ?`. -/
def markNotified (id : Nat) (now : Nat) (db : List Alert) : List Alert :=
  db.map fun a => if a.id == id then { a with last_notified := some now } else a

/-- The affiliate-tagged purchase link used in the email body. -/
def buildBuyUrl (url : String) : String :=
  if substrOf "tag=" url then url
  else url ++ (if substrOf "?" url then "&" else "?") ++ "tag=" ++ AFFILIATE_TAG

/-- The `for (const sub of subscribers)` send loop: every subscriber is
attempted; a successful send updates that subscription's `last_notified` and
increments `sent`; a failed send is logged and the loop continues. -/
def notifyLoop (product : WorkEntry) (oldPrice newPrice pctDrop : ℚ) (buyUrl : String)
    (sendOk : Nat → Bool) (now : Nat) : List Alert → List Alert → NotifyResult
  | db, [] => ⟨db, [], 0⟩
  | db, sub :: rest =>
    let e : Email :=
      ⟨sub.id, sub.email, product.name, oldPrice, newPrice, pctDrop, buyUrl⟩
    if sendOk sub.id then
      let r := notifyLoop product oldPrice newPrice pctDrop buyUrl sendOk now
        (markNotified sub.id now db) rest
      ⟨r.db, e :: r.attempted, r.sent + 1⟩
    else
      let r := notifyLoop product oldPrice newPrice pctDrop buyUrl sendOk now db rest
      ⟨r.db, e :: r.attempted, r.sent⟩

/-- `notifySubscribers(product, oldPrice, newPrice, pctChange, db)`.
`hasApiKey` models `process.env.RESEND_API_KEY` being set; without it the
step logs a warning and returns having done nothing. `sendOk` models the
per-message outcome of the email-delivery collaborator. -/
def notifySubscribers (hasApiKey : Bool) (product : WorkEntry)
    (oldPrice newPrice pctChange : ℚ) (db : List Alert) (sendOk : Nat → Bool)
    (now : Nat) : NotifyResult :=
  if !hasApiKey then ⟨db, [], 0⟩
  else
    let productId := product.asin.getD product.name
    let pctDrop := pctChange * 100
    let subscribers := matchingSubs db productId pctDrop
    if subscribers.isEmpty then ⟨db, [], 0⟩
    else
      notifyLoop product oldPrice newPrice pctDrop (buildBuyUrl product.url)
        sendOk now db subscribers

/-- Joint outcome of `fetchPage` plus the source-appropriate extractor for one
URL: `fetchFail` when the fetch threw (network error, timeout, non-2xx);
`page r` when the page was fetched and the extractor returned `r`. -/
inductive FetchOutcome where
  | fetchFail
  | page (extracted : Option ℚ)
deriving Repr, DecidableEq

/-- Result of `checkProduct`: the (possibly updated) worklist entry, the
changed flag, the threaded subscription table, and the notification
attempts it caused. -/
structure CheckResult where
  product : WorkEntry
  changed : Bool
  db : Option (List Alert)
  emails : List Email
  sent : Nat
deriving Repr, DecidableEq

/-- `checkProduct(product, db)`: fetch and extract; on a >5% change update
price/display/`lastChanged`/`_pctChange` and, for a drop with an open
database, notify subscribers; always advance `lastChecked` when a fetch
succeeded; on a fetch failure leave the entry untouched. -/
def checkProduct (hasApiKey : Bool) (sendOk : Nat → Bool)
    (fetchx : String → FetchOutcome) (now : Nat) (product : WorkEntry)
    (db? : Option (List Alert)) : CheckResult :=
  match fetchx product.url with
  | .fetchFail => ⟨product, false, db?, [], 0⟩
  | .page newPrice? =>
    match newPrice? with
    | some newPrice =>
      if 0 < newPrice then
        let oldPrice := product.price
        let pctChange := |newPrice - oldPrice| / oldPrice
        if 0.05 < pctChange then
          let p1 : WorkEntry :=
            { product with
              price := newPrice
              priceDisplay := formatPartsPrice newPrice
              lastChanged := some now
              pct := some pctChange
              lastChecked := some now }
          if newPrice < oldPrice then
            match db? with
            | some db =>
              let r := notifySubscribers hasApiKey p1 oldPrice newPrice pctChange
                db sendOk now
              ⟨p1, true, some r.db, r.attempted, r.sent⟩
            | none => ⟨p1, true, none, [], 0⟩
          else ⟨p1, true, db?, [], 0⟩
        else ⟨{ product with lastChecked := some now }, false, db?, [], 0⟩
      else ⟨{ product with lastChecked := some now }, false, db?, [], 0⟩
    | none => ⟨{ product with lastChecked := some now }, false, db?, [], 0⟩

/-- Accumulated outcome of the sequential per-product loop in `main`. -/
structure ChecksResult where
  processed : List WorkEntry
  changed : List WorkEntry
  db : Option (List Alert)
  emails : List Email
deriving Repr, DecidableEq

/-- The `for (const product of products)` loop: check each product in order,
collecting the entries whose price changed and threading the subscription
table through; the loop never aborts on a per-product failure. -/
def runChecks (hasApiKey : Bool) (sendOk : Nat → Bool)
    (fetchx : String → FetchOutcome) (now : Nat) :
    List WorkEntry → Option (List Alert) → ChecksResult
  | [], db? => ⟨[], [], db?, []⟩
  | p :: rest, db? =>
    let c := checkProduct hasApiKey sendOk fetchx now p db?
    let r := runChecks hasApiKey sendOk fetchx now rest c.db
    ⟨c.product :: r.processed,
     if c.changed then c.product :: r.changed else r.changed,
     r.db,
     c.emails ++ r.emails⟩

/-- The reliability filter of `syncBackToParts`: drop any change whose
`_pctChange` exceeds the 80% implausibility cap. -/
def reliableOf (changedProducts : List WorkEntry) : List WorkEntry :=
  changedProducts.filter fun p =>
    match p.pct with
    | some c => !decide (0.80 < c)
    | none => true

/-- The `byAsin` / `byUrl` lookup objects built from the reliable changes;
prepending models later assignments overwriting earlier ones. -/
def syncMaps (reliable : List WorkEntry) : List (String × ℚ) × List (String × ℚ) :=
  reliable.foldl
    (fun m p =>
      match p.asin with
      | some a => ((a, p.price) :: m.1, m.2)
      | none => (m.1, (p.url, p.price) :: m.2))
    ([], [])

/-- The new price for a catalog item, matched by ASIN first, then by URL. -/
def syncPriceFor (byAsin byUrl : List (String × ℚ)) (item : PartsItem) : Option ℚ :=
  match item.asin with
  | some a =>
    match byAsin.lookup a with
    | some v => some v
    | none =>
      match item.url with
      | some u => byUrl.lookup u
      | none => none
  | none =>
    match item.url with
    | some u => byUrl.lookup u
    | none => none

/-- `syncBackToParts(partsData, changedProducts)`: write the reliable changed
prices back into the catalog records (regenerating the display string) and
return the updated catalog with the number of items updated. -/
def syncBackToParts (partsData : List PartsItem) (changedProducts : List WorkEntry) :
    List PartsItem × Nat :=
  if changedProducts.isEmpty then (partsData, 0)
  else
    let reliable := reliableOf changedProducts
    if reliable.isEmpty then (partsData, 0)
    else
      let maps := syncMaps reliable
      ((partsData.map fun item =>
          match syncPriceFor maps.1 maps.2 item with
          | some v => { item with price := some (formatPartsPrice v) }
          | none => item),
       (partsData.filter fun item => (syncPriceFor maps.1 maps.2 item).isSome).length)

/-- Observable outcome of one invocation of `main` after startup succeeded:
the final catalog and history contents, the subscription table, the emails
attempted, and whether the catalog file was rewritten / the `PRICES_CHANGED`
sentinel printed. -/
structure RunResult where
  parts : List PartsItem
  prices : HistoryFile
  db : Option (List Alert)
  emails : List Email
  changedProducts : List WorkEntry
  syncedCount : Nat
  partsWritten : Bool
  sentinel : Bool
deriving Repr, DecidableEq

/-- The body of `main` after the catalog file was read: build the worklist,
check every product, always rewrite `prices.json`, and only when at least one
change was detected run `syncBackToParts`, rewrite `parts.json` and print
`PRICES_CHANGED`. `hasDb` models `data/ncmesh.db` existing and opening. -/
def runBatch (partsData : List PartsItem) (existingPrices : HistoryFile)
    (hasApiKey hasDb : Bool) (db0 : List Alert) (sendOk : Nat → Bool)
    (fetchx : String → FetchOutcome) (now : Nat) : RunResult :=
  let products := buildProductList partsData existingPrices
  let db? := if hasDb then some db0 else none
  let r := runChecks hasApiKey sendOk fetchx now products db?
  let prices : HistoryFile := ⟨r.processed, some now⟩
  if r.changed.isEmpty then
    ⟨partsData, prices, r.db, r.emails, r.changed, 0, false, false⟩
  else
    let s := syncBackToParts partsData r.changed
    ⟨s.1, prices, r.db, r.emails, r.changed, s.2, true, true⟩

/-- Process-level outcome: exit code plus the run's results when startup
succeeded. -/
structure JobResult where
  exitCode : Nat
  run : Option RunResult
deriving Repr, DecidableEq

/-- The whole job: a missing or unparseable `parts.json` exits with code 1
before anything is written; a missing or unparseable `prices.json` starts
with fresh empty history; otherwise the batch runs and the process exits 0. -/
def runJob (partsFile : Option (List PartsItem)) (pricesFile : Option HistoryFile)
    (hasApiKey hasDb : Bool) (db0 : List Alert) (sendOk : Nat → Bool)
    (fetchx : String → FetchOutcome) (now : Nat) : JobResult :=
  match partsFile with
  | none => ⟨1, none⟩
  | some partsData =>
    let existingPrices := pricesFile.getD ⟨[], none⟩
    ⟨0, some (runBatch partsData existingPrices hasApiKey hasDb db0 sendOk fetchx now)⟩

/-! ### Concrete fixtures used by counterexamples and witnesses -/

/-- Concrete catalog item used in the example runs. -/
def widgetItem : PartsItem :=
  { name := "Widget", price := some "$20.00",
    url := some "https://example.com/w", asin := none }

/-- The worklist entry `buildProductList` produces for `widgetItem` with an
empty price history. -/
def widgetEntry : WorkEntry :=
  { name := "Widget", price := 20, priceDisplay := "$20.00",
    url := "https://example.com/w", source := "generic", asin := none,
    lastChecked := none, lastChanged := none }

/-- Two example subscriptions for the widget, at 5% and 15% thresholds. -/
def widgetAlerts : List Alert :=
  [{ id := 1, product_id := "Widget", email := "a@example.com", threshold_pct := 5 },
   { id := 2, product_id := "Widget", email := "b@example.com", threshold_pct := 15 }]

/-- Fetch-and-extract oracle giving price `v` for the widget URL. -/
def fxWidget (v : ℚ) : String → FetchOutcome := fun u =>
  if u == "https://example.com/w" then .page (some v) else .fetchFail

/-- Email delivery that always succeeds. -/
def sendAll : Nat → Bool := fun _ => true

/-- Two same-threshold subscriptions used to exercise a partial send failure. -/
def alertsPair : List Alert :=
  [{ id := 1, product_id := "Widget", email := "a@example.com", threshold_pct := 5 },
   { id := 2, product_id := "Widget", email := "b@example.com", threshold_pct := 5 }]

/-- Email delivery that only succeeds for subscription id 2. -/
def sendOnly2 : Nat → Bool := fun n => n == 2

/-- The widget worklist entry as updated by a run at time 7 whose extractor
returned `v`. -/
def widgetEntryAt (v : ℚ) : WorkEntry :=
  { widgetEntry with
    price := v
    priceDisplay := formatPartsPrice v
    lastChanged := some 7
    pct := some (|v - widgetEntry.price| / widgetEntry.price)
    lastChecked := some 7 }

/-! ### Helper lemmas -/

/-- Some subscription in `subs` targets `a`'s id and its send succeeded. -/
def updHit (subs : List Alert) (sendOk : Nat → Bool) (a : Alert) : Bool :=
  subs.any fun s => a.id == s.id && sendOk s.id


theorem notifyLoop_attempted (product : WorkEntry) (oldP newP drop : ℚ)
    (buyUrl : String) (sendOk : Nat → Bool) (now : Nat) (subs : List Alert) :
    ∀ db : List Alert,
      (notifyLoop product oldP newP drop buyUrl sendOk now db subs).attempted
        = subs.map fun s =>
            ⟨s.id, s.email, product.name, oldP, newP, drop, buyUrl⟩ := by
  induction subs with
  | nil => intro db; rfl
  | cons s rest ih =>
    intro db
    by_cases hs : sendOk s.id = true
    · simp [notifyLoop, hs, ih]
    · simp [notifyLoop, hs, ih]

theorem notifyLoop_db (product : WorkEntry) (oldP newP drop : ℚ)
    (buyUrl : String) (sendOk : Nat → Bool) (now : Nat) (subs : List Alert) :
    ∀ db : List Alert,
      (notifyLoop product oldP newP drop buyUrl sendOk now db subs).db
        = db.map fun a =>
            if updHit subs sendOk a then { a with last_notified := some now }
            else a := by
  induction subs with
  | nil =>
    intro db
    simp [notifyLoop, updHit]
  | cons s rest ih =>
    intro db
    by_cases hs : sendOk s.id = true
    · simp only [notifyLoop, hs, if_true]
      rw [ih, markNotified, List.map_map]
      apply List.map_congr_left
      intro a _
      by_cases hid : a.id = s.id
      · simp [updHit, Function.comp, hid, hs]
      · simp [updHit, Function.comp, hid, hs]
    · simp only [notifyLoop, hs, Bool.false_eq_true, if_false]
      rw [ih]
      apply List.map_congr_left
      intro a _
      by_cases hid : a.id = s.id
      · simp [updHit, hid, hs]
      · simp [updHit, hid, hs]

theorem foldl_min_mem (ps : List ℚ) : ∀ p : ℚ, ps.foldl min p ∈ p :: ps := by
  induction ps with
  | nil => intro p; simp
  | cons q qs ih =>
    intro p
    rw [List.foldl_cons]
    rcases List.mem_cons.mp (ih (min p q)) with h1 | h1
    · rw [h1]
      rcases min_choice p q with hm | hm <;> simp [hm]
    · simp [h1]

theorem foldl_min_le_init (ps : List ℚ) : ∀ p : ℚ, ps.foldl min p ≤ p := by
  induction ps with
  | nil => intro p; exact le_refl p
  | cons q qs ih =>
    intro p
    rw [List.foldl_cons]
    exact le_trans (ih (min p q)) (min_le_left p q)

theorem foldl_min_le_mem (ps : List ℚ) :
    ∀ (p q : ℚ), q ∈ ps → ps.foldl min p ≤ q := by
  induction ps with
  | nil => intro p q hq; cases hq
  | cons r rs ih =>
    intro p q hq
    rw [List.foldl_cons]
    rcases List.mem_cons.mp hq with h1 | h1
    · rw [h1]
      exact le_trans (foldl_min_le_init rs (min p r)) (min_le_right p r)
    · exact ih (min p r) q h1

theorem checkProduct_fetchFail (hk : Bool) (so : Nat → Bool)
    (fx : String → FetchOutcome) (now : Nat) (p : WorkEntry)
    (db? : Option (List Alert)) (hf : fx p.url = .fetchFail) :
    checkProduct hk so fx now p db? = ⟨p, false, db?, [], 0⟩ := by
  simp [checkProduct, hf]

theorem checkProduct_noExtract (hk : Bool) (so : Nat → Bool)
    (fx : String → FetchOutcome) (now : Nat) (p : WorkEntry)
    (db? : Option (List Alert)) (hf : fx p.url = .page none) :
    checkProduct hk so fx now p db?
      = ⟨{ p with lastChecked := some now }, false, db?, [], 0⟩ := by
  simp [checkProduct, hf]

theorem checkProduct_unchanged (hk : Bool) (so : Nat → Bool)
    (fx : String → FetchOutcome) (now : Nat) (p : WorkEntry)
    (db? : Option (List Alert)) (V : ℚ) (hf : fx p.url = .page (some V))
    (hold : 0 < p.price) (hsmall : |V - p.price| / p.price ≤ 0.05) :
    checkProduct hk so fx now p db?
      = ⟨{ p with lastChecked := some now }, false, db?, [], 0⟩ := by
  have habs : |V - p.price| ≤ 0.05 * p.price := by
    rw [div_le_iff₀ hold] at hsmall
    linarith
  have hub : p.price - V ≤ |V - p.price| := by
    rw [abs_sub_comm]
    exact le_abs_self _
  have hV : 0 < V := by linarith
  simp only [checkProduct, hf]
  rw [if_pos hV, if_neg (not_lt.mpr hsmall)]

theorem checkProduct_changed (hk : Bool) (so : Nat → Bool)
    (fx : String → FetchOutcome) (now : Nat) (p : WorkEntry)
    (db? : Option (List Alert)) (V : ℚ) (hf : fx p.url = .page (some V))
    (hV : 0 < V) (hbig : 0.05 < |V - p.price| / p.price) :
    (checkProduct hk so fx now p db?).product
        = { p with
            price := V
            priceDisplay := formatPartsPrice V
            lastChanged := some now
            pct := some (|V - p.price| / p.price)
            lastChecked := some now } ∧
    (checkProduct hk so fx now p db?).changed = true := by
  simp only [checkProduct, hf]
  rw [if_pos hV, if_pos hbig]
  by_cases hlt : V < p.price
  · rw [if_pos hlt]
    cases db? <;> simp
  · rw [if_neg hlt]
    simp

theorem checkProduct_core_eq (hk1 hk2 : Bool) (so1 so2 : Nat → Bool)
    (fx : String → FetchOutcome) (now : Nat) (p : WorkEntry)
    (db?1 db?2 : Option (List Alert)) :
    (checkProduct hk1 so1 fx now p db?1).product
        = (checkProduct hk2 so2 fx now p db?2).product ∧
    (checkProduct hk1 so1 fx now p db?1).changed
        = (checkProduct hk2 so2 fx now p db?2).changed := by
  cases hfx : fx p.url with
  | fetchFail => simp [checkProduct, hfx]
  | page r =>
    cases r with
    | none => simp [checkProduct, hfx]
    | some V =>
      simp only [checkProduct, hfx]
      by_cases hV : 0 < V
      · rw [if_pos hV, if_pos hV]
        by_cases hbig : 0.05 < |V - p.price| / p.price
        · rw [if_pos hbig, if_pos hbig]
          by_cases hlt : V < p.price
          · rw [if_pos hlt, if_pos hlt]
            cases db?1 <;> cases db?2 <;> simp
          · rw [if_neg hlt, if_neg hlt]
            simp
        · rw [if_neg hbig, if_neg hbig]
          simp
      · rw [if_neg hV, if_neg hV]
        simp

theorem checkProduct_noKey (so : Nat → Bool) (fx : String → FetchOutcome)
    (now : Nat) (p : WorkEntry) (db? : Option (List Alert)) :
    (checkProduct false so fx now p db?).db = db? ∧
    (checkProduct false so fx now p db?).emails = [] ∧
    (checkProduct false so fx now p db?).sent = 0 := by
  cases hfx : fx p.url with
  | fetchFail => simp [checkProduct, hfx]
  | page r =>
    cases r with
    | none => simp [checkProduct, hfx]
    | some V =>
      simp only [checkProduct, hfx]
      by_cases hV : 0 < V
      · rw [if_pos hV]
        by_cases hbig : 0.05 < |V - p.price| / p.price
        · rw [if_pos hbig]
          by_cases hlt : V < p.price
          · rw [if_pos hlt]
            cases db? <;> simp [notifySubscribers]
          · rw [if_neg hlt]
            simp
        · rw [if_neg hbig]
          simp
      · rw [if_neg hV]
        simp

theorem checkProduct_same_price (hk : Bool) (so : Nat → Bool)
    (fx : String → FetchOutcome) (now : Nat) (p : WorkEntry)
    (db? : Option (List Alert)) (hf : fx p.url = .page (some p.price)) :
    (checkProduct hk so fx now p db?).changed = false := by
  simp only [checkProduct, hf]
  by_cases hV : 0 < p.price
  · rw [if_pos hV]
    have hz : ¬ (0.05 < |p.price - p.price| / p.price) := by
      rw [sub_self, abs_zero, zero_div]
      norm_num
    rw [if_neg hz]
  · rw [if_neg hV]

theorem runChecks_length (hk : Bool) (so : Nat → Bool) (fx : String → FetchOutcome)
    (now : Nat) (l : List WorkEntry) :
    ∀ db? : Option (List Alert),
      (runChecks hk so fx now l db?).processed.length = l.length := by
  induction l with
  | nil => intro db?; rfl
  | cons p rest ih =>
    intro db?
    simp only [runChecks, List.length_cons]
    rw [ih]

theorem runChecks_core_eq (hk1 hk2 : Bool) (so1 so2 : Nat → Bool)
    (fx : String → FetchOutcome) (now : Nat) (l : List WorkEntry) :
    ∀ db?1 db?2 : Option (List Alert),
      (runChecks hk1 so1 fx now l db?1).processed
          = (runChecks hk2 so2 fx now l db?2).processed ∧
      (runChecks hk1 so1 fx now l db?1).changed
          = (runChecks hk2 so2 fx now l db?2).changed := by
  induction l with
  | nil => intro db?1 db?2; exact ⟨rfl, rfl⟩
  | cons p rest ih =>
    intro db?1 db?2
    have hc := checkProduct_core_eq hk1 hk2 so1 so2 fx now p db?1 db?2
    have hr := ih (checkProduct hk1 so1 fx now p db?1).db
      (checkProduct hk2 so2 fx now p db?2).db
    simp only [runChecks]
    rw [hc.1, hc.2, hr.1, hr.2]
    exact ⟨rfl, rfl⟩

theorem runChecks_processed_map (hk : Bool) (so : Nat → Bool)
    (fx : String → FetchOutcome) (now : Nat) (l : List WorkEntry) :
    ∀ db? : Option (List Alert),
      (runChecks hk so fx now l db?).processed
        = l.map fun e => (checkProduct hk so fx now e none).product := by
  induction l with
  | nil => intro db?; rfl
  | cons p rest ih =>
    intro db?
    simp only [runChecks, List.map_cons]
    rw [ih, (checkProduct_core_eq hk hk so so fx now p db? none).1]

theorem runChecks_changed_nil (hk : Bool) (so : Nat → Bool)
    (fx : String → FetchOutcome) (now : Nat) (l : List WorkEntry) :
    ∀ db? : Option (List Alert),
      ((runChecks hk so fx now l db?).changed = [] ↔
        ∀ e ∈ l, (checkProduct hk so fx now e none).changed = false) := by
  induction l with
  | nil =>
    intro db?
    simp [runChecks]
  | cons p rest ih =>
    intro db?
    simp only [runChecks]
    rw [(checkProduct_core_eq hk hk so so fx now p db? none).2]
    by_cases hch : (checkProduct hk so fx now p none).changed = true
    · rw [if_pos hch]
      constructor
      · intro h; cases h
      · intro h
        have := h p (List.mem_cons_self p rest)
        rw [hch] at this
        cases this
    · rw [if_neg hch]
      rw [ih (checkProduct hk so fx now p db?).db]
      constructor
      · intro h e he
        rcases List.mem_cons.mp he with h1 | h1
        · rw [h1]
          exact Bool.eq_false_iff.mpr hch
        · exact h e h1
      · intro h e he
        exact h e (List.mem_cons_of_mem p he)

theorem runChecks_noKey (so : Nat → Bool) (fx : String → FetchOutcome)
    (now : Nat) (l : List WorkEntry) :
    ∀ db? : Option (List Alert),
      (runChecks false so fx now l db?).db = db? ∧
      (runChecks false so fx now l db?).emails = [] := by
  induction l with
  | nil => intro db?; exact ⟨rfl, rfl⟩
  | cons p rest ih =>
    intro db?
    have hc := checkProduct_noKey so fx now p db?
    have hr := ih (checkProduct false so fx now p db?).db
    simp only [runChecks]
    refine ⟨?_, ?_⟩
    · rw [hr.1, hc.1]
    · rw [hc.2.1, hr.2, List.nil_append]

theorem notifySubscribers_attempted (p : WorkEntry) (oldP newP pct : ℚ)
    (db : List Alert) (so : Nat → Bool) (now : Nat) :
    (notifySubscribers true p oldP newP pct db so now).attempted
      = (matchingSubs db (p.asin.getD p.name) (pct * 100)).map fun s =>
          ⟨s.id, s.email, p.name, oldP, newP, pct * 100, buildBuyUrl p.url⟩ := by
  simp only [notifySubscribers, Bool.not_true, Bool.false_eq_true, if_false]
  by_cases he : (matchingSubs db (p.asin.getD p.name) (pct * 100)).isEmpty = true
  · rw [if_pos he, List.isEmpty_iff.mp he]
    rfl
  · rw [if_neg he, notifyLoop_attempted]


theorem notifySubscribers_db (p : WorkEntry) (oldP newP pct : ℚ)
    (db : List Alert) (so : Nat → Bool) (now : Nat)
    (hids : (db.map Alert.id).Nodup) :
    (notifySubscribers true p oldP newP pct db so now).db
      = db.map fun a =>
          if (a.product_id == p.asin.getD p.name && a.active
              && decide (a.threshold_pct ≤ pct * 100)) && so a.id
          then { a with last_notified := some now } else a := by
  have hcond : ∀ a ∈ db,
      updHit (matchingSubs db (p.asin.getD p.name) (pct * 100)) so a
        = ((a.product_id == p.asin.getD p.name && a.active
            && decide (a.threshold_pct ≤ pct * 100)) && so a.id) := by
    intro a ha
    by_cases hp : ((a.product_id == p.asin.getD p.name && a.active
        && decide (a.threshold_pct ≤ pct * 100)) && so a.id) = true
    · rw [hp]
      rw [Bool.and_eq_true] at hp
      rw [updHit, List.any_eq_true]
      refine ⟨a, List.mem_filter.mpr ⟨ha, hp.1⟩, ?_⟩
      simp [hp.2]
    · rw [Bool.eq_false_iff.mpr hp]
      apply Bool.eq_false_iff.mpr
      intro hu
      rw [updHit, List.any_eq_true] at hu
      obtain ⟨s, hsmem, hspred⟩ := hu
      obtain ⟨hsdb, hsfilter⟩ := List.mem_filter.mp hsmem
      rw [Bool.and_eq_true] at hspred
      obtain ⟨hid, hso⟩ := hspred
      have hsa : s = a :=
        List.inj_on_of_nodup_map hids hsdb ha (beq_iff_eq.mp hid).symm
      apply hp
      rw [Bool.and_eq_true]
      subst hsa
      exact ⟨hsfilter, hso⟩
  simp only [notifySubscribers, Bool.not_true, Bool.false_eq_true, if_false]
  by_cases he : (matchingSubs db (p.asin.getD p.name) (pct * 100)).isEmpty = true
  · rw [if_pos he]
    have hnil := List.isEmpty_iff.mp he
    have hmap : ∀ a ∈ db,
        (if (a.product_id == p.asin.getD p.name && a.active
            && decide (a.threshold_pct ≤ pct * 100)) && so a.id
         then { a with last_notified := some now } else a) = a := by
      intro a ha
      rw [← hcond a ha, hnil]
      simp [updHit]
    rw [List.map_congr_left hmap]
    simp
  · rw [if_neg he, notifyLoop_db]
    apply List.map_congr_left
    intro a ha
    rw [hcond a ha]

/-! ### The claims -/

/-- C1, counterexample: one catalog item whose extracted price jumps from $20
to $95 (a 375% change, rejected by the 80% cap). Reconciliation accepts zero
changes and the catalog records are unchanged, yet the job still prints the
`PRICES_CHANGED` sentinel and rewrites the catalog file — refuting the claimed
equivalence with "the reconciliation step accepted at least one change". -/
theorem c1_cex_sentinel_without_accepted_change :
    (runBatch [widgetItem] ⟨[], none⟩ true true widgetAlerts sendAll
        (fxWidget 95) 7).syncedCount = 0 ∧
    (runBatch [widgetItem] ⟨[], none⟩ true true widgetAlerts sendAll
        (fxWidget 95) 7).parts = [widgetItem] ∧
    (runBatch [widgetItem] ⟨[], none⟩ true true widgetAlerts sendAll
        (fxWidget 95) 7).sentinel = true ∧
    (runBatch [widgetItem] ⟨[], none⟩ true true widgetAlerts sendAll
        (fxWidget 95) 7).partsWritten = true := by
  with_unfolding_all decide

/-- C1, amended: the batch prints the `PRICES_CHANGED` sentinel and rewrites
the catalog file if and only if at least one product's check detected a
change (>5%), whether or not any detected change survives the 80%
implausibility cap; rewriting and the sentinel always go together. -/
theorem c1_sentinel_iff_change_detected (partsData : List PartsItem)
    (existingPrices : HistoryFile) (hk hdb : Bool) (db0 : List Alert)
    (so : Nat → Bool) (fx : String → FetchOutcome) (now : Nat) :
    (runBatch partsData existingPrices hk hdb db0 so fx now).partsWritten
      = (runBatch partsData existingPrices hk hdb db0 so fx now).sentinel ∧
    ((runBatch partsData existingPrices hk hdb db0 so fx now).sentinel = true ↔
      ∃ e ∈ buildProductList partsData existingPrices,
        (checkProduct hk so fx now e none).changed = true) := by
  simp only [runBatch]
  by_cases hnil : (runChecks hk so fx now (buildProductList partsData existingPrices)
      (if hdb then some db0 else none)).changed.isEmpty = true
  · rw [if_pos hnil]
    refine ⟨rfl, ?_⟩
    have hall := (runChecks_changed_nil hk so fx now
      (buildProductList partsData existingPrices) (if hdb then some db0 else none)).mp
      (List.isEmpty_iff.mp hnil)
    constructor
    · intro h; cases h
    · rintro ⟨e, he, hch⟩
      rw [hall e he] at hch
      cases hch
  · rw [if_neg hnil]
    refine ⟨rfl, ?_⟩
    constructor
    · intro _
      by_contra hno
      push_neg at hno
      apply hnil
      rw [List.isEmpty_iff]
      rw [runChecks_changed_nil]
      intro e he
      exact Bool.eq_false_iff.mpr fun h => (hno e he) h
    · intro _; rfl

theorem syncBackToParts_implausible (partsData : List PartsItem) (u : WorkEntry)
    (c : ℚ) (hpct : u.pct = some c) (hcap : 0.80 < c) :
    syncBackToParts partsData [u] = (partsData, 0) := by
  have hrel : reliableOf [u] = [] := by
    simp [reliableOf, List.filter, hpct, hcap]
  simp [syncBackToParts, hrel]

theorem reliableOf_filter_ne (l : List WorkEntry) (u : WorkEntry) (c : ℚ)
    (hpct : u.pct = some c) (hcap : 0.80 < c) :
    reliableOf (l.filter fun p => decide (p ≠ u)) = reliableOf l := by
  induction l with
  | nil => rfl
  | cons p l' ih =>
    simp only [reliableOf] at ih ⊢
    by_cases hpu : p = u
    · subst hpu
      have h1 : List.filter (fun q => decide (q ≠ p)) (p :: l')
          = List.filter (fun q => decide (q ≠ p)) l' := by
        rw [List.filter_cons]
        simp
      have h2 : List.filter
          (fun q => match q.pct with
            | some c => !decide (0.80 < c)
            | none => true) (p :: l')
          = List.filter
          (fun q => match q.pct with
            | some c => !decide (0.80 < c)
            | none => true) l' := by
        rw [List.filter_cons]
        simp [hpct, hcap]
      rw [h1, h2, ih]
    · have h1 : List.filter (fun q => decide (q ≠ u)) (p :: l')
          = p :: List.filter (fun q => decide (q ≠ u)) l' := by
        rw [List.filter_cons]
        simp [hpu]
      rw [h1, List.filter_cons, List.filter_cons, ih]

theorem syncParts_filter_ne (partsData : List PartsItem) (l : List WorkEntry)
    (u : WorkEntry) (c : ℚ) (hpct : u.pct = some c) (hcap : 0.80 < c) :
    (if l.isEmpty then partsData else (syncBackToParts partsData l).1)
      = (syncBackToParts partsData (l.filter fun p => decide (p ≠ u))).1 := by
  have hrel : reliableOf (l.filter fun p => decide (p ≠ u)) = reliableOf l :=
    reliableOf_filter_ne l u c hpct hcap
  cases l with
  | nil => rfl
  | cons p l' =>
    simp only [List.isEmpty_cons, Bool.false_eq_true, if_false]
    simp only [syncBackToParts]
    rw [hrel]
    simp only [List.isEmpty_cons, Bool.false_eq_true, if_false]
    by_cases hfe : ((p :: l').filter fun q => decide (q ≠ u)).isEmpty = true
    · rw [if_pos hfe]
      have hrnil : reliableOf (p :: l') = [] := by
        rw [← hrel, List.isEmpty_iff.mp hfe]
        rfl
      rw [hrnil]
      simp
    · rw [if_neg hfe]

theorem checkProduct_db_isSome (hk : Bool) (so : Nat → Bool)
    (fx : String → FetchOutcome) (now : Nat) (p : WorkEntry) (d : List Alert) :
    ∃ d' : List Alert, (checkProduct hk so fx now p (some d)).db = some d' := by
  cases hfx : fx p.url with
  | fetchFail => exact ⟨d, by simp [checkProduct, hfx]⟩
  | page r =>
    cases r with
    | none => exact ⟨d, by simp [checkProduct, hfx]⟩
    | some V =>
      simp only [checkProduct, hfx]
      by_cases hV : 0 < V
      · rw [if_pos hV]
        by_cases hbig : 0.05 < |V - p.price| / p.price
        · rw [if_pos hbig]
          by_cases hlt : V < p.price
          · rw [if_pos hlt]
            exact ⟨_, rfl⟩
          · rw [if_neg hlt]
            exact ⟨d, rfl⟩
        · rw [if_neg hbig]
          exact ⟨d, rfl⟩
      · rw [if_neg hV]
        exact ⟨d, rfl⟩

theorem runChecks_emails_at (hk : Bool) (so : Nat → Bool)
    (fx : String → FetchOutcome) (now : Nat) (e : WorkEntry) :
    ∀ (l : List WorkEntry) (d0 : List Alert), e ∈ l →
      ∃ (d1 : List Alert) (pre post : List Email),
        (runChecks hk so fx now l (some d0)).emails
          = pre ++ (checkProduct hk so fx now e (some d1)).emails ++ post := by
  intro l
  induction l with
  | nil =>
    intro d0 hmem
    cases hmem
  | cons p l' ih =>
    intro d0 hmem
    rcases List.mem_cons.mp hmem with h1 | h1
    · subst h1
      refine ⟨d0, [],
        (runChecks hk so fx now l' (checkProduct hk so fx now e (some d0)).db).emails, ?_⟩
      simp [runChecks]
    · obtain ⟨d', hd'⟩ := checkProduct_db_isSome hk so fx now p d0
      obtain ⟨d1, pre, post, heq⟩ := ih d' h1
      refine ⟨d1, (checkProduct hk so fx now p (some d0)).emails ++ pre, post, ?_⟩
      simp only [runChecks]
      rw [hd', heq]
      simp [List.append_assoc]

/-- C2: for every product in the worklist whose newly extracted price V
differs from the cached price by more than 80%, the price-history store
written at the end of the run records V as that product's price, the
reliability filter of the reconciliation step discards that product's change,
and the catalog the run writes is exactly the catalog reconciliation produces
from the other detected changes alone — so V is never written into the
catalog store (in particular, when no other change matches the item, the
item's price field is unchanged). -/
theorem c2_implausible_change_history_not_catalog (partsData : List PartsItem)
    (existingPrices : HistoryFile) (e : WorkEntry) (V : ℚ) (hk hdb : Bool)
    (db0 : List Alert) (so : Nat → Bool) (fx : String → FetchOutcome) (now : Nat)
    (eU : WorkEntry)
    (heU : eU = { e with
      price := V
      priceDisplay := formatPartsPrice V
      lastChanged := some now
      pct := some (|V - e.price| / e.price)
      lastChecked := some now })
    (he : e ∈ buildProductList partsData existingPrices)
    (hf : fx e.url = .page (some V)) (hV : 0 < V)
    (hcap : 0.80 < |V - e.price| / e.price) :
    eU ∈ (runBatch partsData existingPrices hk hdb db0 so fx now).prices.products ∧
    eU ∉ reliableOf
      (runBatch partsData existingPrices hk hdb db0 so fx now).changedProducts ∧
    (runBatch partsData existingPrices hk hdb db0 so fx now).parts
      = (syncBackToParts partsData
          ((runBatch partsData existingPrices hk hdb db0 so fx now).changedProducts.filter
            fun p => decide (p ≠ eU))).1 := by
  have hbig : (0.05 : ℚ) < |V - e.price| / e.price := lt_trans (by norm_num) hcap
  have hpct : eU.pct = some (|V - e.price| / e.price) := by rw [heU]
  obtain ⟨hprod, _⟩ := checkProduct_changed hk so fx now e none V hf hV hbig
  refine ⟨?_, ?_, ?_⟩
  · have hmem : eU ∈ (runChecks hk so fx now
        (buildProductList partsData existingPrices)
        (if hdb then some db0 else none)).processed := by
      rw [runChecks_processed_map]
      exact List.mem_map.mpr ⟨e, he, by rw [hprod, heU]⟩
    simp only [runBatch]
    by_cases hnil : (runChecks hk so fx now
        (buildProductList partsData existingPrices)
        (if hdb then some db0 else none)).changed.isEmpty = true
    · rw [if_pos hnil]
      exact hmem
    · rw [if_neg hnil]
      exact hmem
  · intro hmemrel
    have hpred := (List.mem_filter.mp hmemrel).2
    simp only [hpct] at hpred
    rw [decide_eq_true hcap] at hpred
    simp at hpred
  · have hkey := syncParts_filter_ne partsData
      (runChecks hk so fx now (buildProductList partsData existingPrices)
        (if hdb then some db0 else none)).changed
      eU (|V - e.price| / e.price) hpct hcap
    simp only [runBatch]
    by_cases hnil : (runChecks hk so fx now
        (buildProductList partsData existingPrices)
        (if hdb then some db0 else none)).changed.isEmpty = true
    · rw [if_pos hnil] at hkey ⊢
      exact hkey
    · rw [if_neg hnil] at hkey ⊢
      exact hkey

/-- C3: for a confirmed price drop, the notification fan-out attempts exactly
one email per subscription of the product that is active with a threshold (in
percentage points) at most the observed drop, in query order, and attempts
none for inactive subscriptions or thresholds above the drop. -/
theorem c3_notify_exactly_matching_subs (p : WorkEntry) (oldP newP pct : ℚ)
    (db : List Alert) (so : Nat → Bool) (now : Nat) :
    (notifySubscribers true p oldP newP pct db so now).attempted.map Email.alertId
      = (matchingSubs db (p.asin.getD p.name) (pct * 100)).map Alert.id ∧
    ∀ a : Alert, a ∈ matchingSubs db (p.asin.getD p.name) (pct * 100) ↔
      (a ∈ db ∧ a.product_id = p.asin.getD p.name ∧ a.active = true ∧
        a.threshold_pct ≤ pct * 100) := by
  constructor
  · rw [notifySubscribers_attempted, List.map_map]
    rfl
  · intro a
    simp [matchingSubs, List.mem_filter, and_assoc]

/-- C4: when the extracted price differs from the cached price by at most 5%,
the product entry keeps its price, display string and `lastChanged`, is not
counted as changed, and only its `lastChecked` advances to the current run
timestamp; that entry is what the run writes to the price-history store. -/
theorem c4_small_change_lastChecked_only (partsData : List PartsItem)
    (existingPrices : HistoryFile) (e : WorkEntry) (V : ℚ) (hk hdb : Bool)
    (db0 : List Alert) (so : Nat → Bool) (fx : String → FetchOutcome)
    (now : Nat) (db? : Option (List Alert))
    (he : e ∈ buildProductList partsData existingPrices)
    (hf : fx e.url = .page (some V)) (hold : 0 < e.price)
    (hsmall : |V - e.price| / e.price ≤ 0.05) :
    checkProduct hk so fx now e db?
      = ⟨{ e with lastChecked := some now }, false, db?, [], 0⟩ ∧
    { e with lastChecked := some now }
      ∈ (runBatch partsData existingPrices hk hdb db0 so fx now).prices.products := by
  refine ⟨checkProduct_unchanged hk so fx now e db? V hf hold hsmall, ?_⟩
  have hmem : { e with lastChecked := some now }
      ∈ (runChecks hk so fx now (buildProductList partsData existingPrices)
          (if hdb then some db0 else none)).processed := by
    rw [runChecks_processed_map]
    refine List.mem_map.mpr ⟨e, he, ?_⟩
    rw [checkProduct_unchanged hk so fx now e none V hf hold hsmall]
  simp only [runBatch]
  by_cases hnil : (runChecks hk so fx now (buildProductList partsData existingPrices)
      (if hdb then some db0 else none)).changed.isEmpty = true
  · rw [if_pos hnil]
    exact hmem
  · rw [if_neg hnil]
    exact hmem

/-- C4 witness: a $20 widget extracted at $20.50 (2.5% change). -/
theorem c4_witness :
    checkProduct true sendAll (fxWidget 20.5) 7 widgetEntry (some widgetAlerts)
      = ⟨{ widgetEntry with lastChecked := some 7 }, false, some widgetAlerts, [], 0⟩ ∧
    { widgetEntry with lastChecked := some 7 }
      ∈ (runBatch [widgetItem] ⟨[], none⟩ true true widgetAlerts sendAll
          (fxWidget 20.5) 7).prices.products :=
  c4_small_change_lastChecked_only [widgetItem] ⟨[], none⟩ widgetEntry 20.5 true true
    widgetAlerts sendAll (fxWidget 20.5) 7 (some widgetAlerts)
    (by with_unfolding_all decide) (by with_unfolding_all decide)
    (by with_unfolding_all decide) (by with_unfolding_all decide)

/-- C5: on a generic page where no structured selector matched, the extractor
returns `none` exactly when no scanned currency token lies strictly between 5
and 500, and any value it returns is one of the scanned tokens in that range
and a lower bound of all of them, i.e. their minimum. -/
theorem c5_generic_fallback_min_in_range (html : String) :
    (extractGenericPrice none html = none ↔
      (scanCurrency html.data).filter
        (fun p => decide (5 < p) && decide (p < 500)) = []) ∧
    ∀ v : ℚ, extractGenericPrice none html = some v →
      v ∈ (scanCurrency html.data).filter
          (fun p => decide (5 < p) && decide (p < 500)) ∧
      ∀ q ∈ (scanCurrency html.data).filter
          (fun p => decide (5 < p) && decide (p < 500)), v ≤ q := by
  constructor
  · simp only [extractGenericPrice, genericFallback]
    cases hps : (scanCurrency html.data).filter
        (fun p => decide (5 < p) && decide (p < 500)) with
    | nil => simp
    | cons p ps => simp
  · intro v hv
    simp only [extractGenericPrice, genericFallback] at hv
    cases hps : (scanCurrency html.data).filter
        (fun p => decide (5 < p) && decide (p < 500)) with
    | nil =>
      rw [hps] at hv
      cases hv
    | cons p ps =>
      rw [hps] at hv
      injection hv with hv
      subst hv
      constructor
      · exact foldl_min_mem ps p
      · intro q hq
        rcases List.mem_cons.mp hq with h1 | h1
        · rw [h1]
          exact foldl_min_le_init ps p
        · exact foldl_min_le_mem ps p q h1

/-- C5 witness: of the tokens $9.10, $ 7.50 and $600.00, the ones in range
are 9.10 and 7.50 and the extractor returns the minimum, 7.50. -/
theorem c5_witness :
    (7.5 : ℚ) ∈ (scanCurrency "x $9.10 sees $ 7.50 or $600.00".data).filter
        (fun p => decide (5 < p) && decide (p < 500)) ∧
    ∀ q ∈ (scanCurrency "x $9.10 sees $ 7.50 or $600.00".data).filter
        (fun p => decide (5 < p) && decide (p < 500)), (7.5 : ℚ) ≤ q :=
  (c5_generic_fallback_min_in_range "x $9.10 sees $ 7.50 or $600.00").2 7.5
    (by with_unfolding_all decide)

theorem buildProductList_history_wins (partsData : List PartsItem)
    (existingPrices : HistoryFile) (e : WorkEntry)
    (he : e ∈ buildProductList partsData existingPrices) (hrec : WorkEntry)
    (hl : (historyIndex existingPrices.products).lookup (e.asin.getD e.url)
      = some hrec) :
    e.price = hrec.price ∧ e.priceDisplay = hrec.priceDisplay := by
  simp only [buildProductList] at he
  obtain ⟨item, hitem, hmk⟩ := List.mem_filterMap.mp he
  by_cases hskip : shouldSkip item = true
  · rw [if_pos hskip] at hmk
    cases hmk
  · rw [if_neg hskip] at hmk
    cases hurl : buildUrl item with
    | none =>
      rw [hurl] at hmk
      cases hmk
    | some url =>
      rw [hurl] at hmk
      cases hpp : parsePartsPrice item.price with
      | none =>
        rw [hpp] at hmk
        cases hmk
      | some price =>
        rw [hpp] at hmk
        injection hmk with hmk
        have hasin : e.asin = item.asin := by rw [← hmk]
        have hurl2 : e.url = url := by rw [← hmk]
        rw [hasin, hurl2] at hl
        constructor
        · rw [← hmk]
          dsimp only
          rw [hl]
        · rw [← hmk]
          dsimp only
          rw [hl]

/-- C6: running the batch twice in succession with no real-world price change
— on the second run the extractor returns, for every worklist entry, exactly
the price that entry carries, which by the history-wins rule (also stated
here) is the price the first run recorded — detects zero changes, rewrites
nothing in the catalog, prints no sentinel, and leaves the catalog records
identical to the first run's output. -/
theorem c6_second_run_idempotent (parts0 : List PartsItem) (prices0 : HistoryFile)
    (hk1 hdb1 : Bool) (db1 : List Alert) (so1 : Nat → Bool)
    (fx1 : String → FetchOutcome) (t1 : Nat) (hk2 hdb2 : Bool) (db2 : List Alert)
    (so2 : Nat → Bool) (fx2 : String → FetchOutcome) (t2 : Nat)
    (parts1 : List PartsItem) (prices1 : HistoryFile)
    (hparts : parts1 = (runBatch parts0 prices0 hk1 hdb1 db1 so1 fx1 t1).parts)
    (hprices : prices1 = (runBatch parts0 prices0 hk1 hdb1 db1 so1 fx1 t1).prices)
    (hfx2 : ∀ e ∈ buildProductList parts1 prices1, fx2 e.url = .page (some e.price)) :
    (runBatch parts1 prices1 hk2 hdb2 db2 so2 fx2 t2).changedProducts = [] ∧
    (runBatch parts1 prices1 hk2 hdb2 db2 so2 fx2 t2).parts = parts1 ∧
    (runBatch parts1 prices1 hk2 hdb2 db2 so2 fx2 t2).partsWritten = false ∧
    (runBatch parts1 prices1 hk2 hdb2 db2 so2 fx2 t2).sentinel = false ∧
    ∀ e ∈ buildProductList parts1 prices1, ∀ hrec : WorkEntry,
      (historyIndex prices1.products).lookup (e.asin.getD e.url) = some hrec →
      e.price = hrec.price ∧ e.priceDisplay = hrec.priceDisplay := by
  have hnil : (runChecks hk2 so2 fx2 t2 (buildProductList parts1 prices1)
      (if hdb2 then some db2 else none)).changed = [] := by
    rw [runChecks_changed_nil]
    intro e he
    exact checkProduct_same_price hk2 so2 fx2 t2 e none (hfx2 e he)
  refine ⟨?_, ?_, ?_, ?_,
    fun e he hrec hl => buildProductList_history_wins parts1 prices1 e he hrec hl⟩
  all_goals simp only [runBatch]
  all_goals rw [hnil]
  all_goals rfl

/-- C6 witness: first run drops the widget from $20 to $18; the second run
extracts $18 again for it and changes nothing. -/
theorem c6_witness :
    (runBatch (runBatch [widgetItem] ⟨[], none⟩ true true widgetAlerts sendAll
        (fxWidget 18) 7).parts
      (runBatch [widgetItem] ⟨[], none⟩ true true widgetAlerts sendAll
        (fxWidget 18) 7).prices
      true true widgetAlerts sendAll (fxWidget 18) 8).changedProducts = [] ∧
    (runBatch (runBatch [widgetItem] ⟨[], none⟩ true true widgetAlerts sendAll
        (fxWidget 18) 7).parts
      (runBatch [widgetItem] ⟨[], none⟩ true true widgetAlerts sendAll
        (fxWidget 18) 7).prices
      true true widgetAlerts sendAll (fxWidget 18) 8).parts
      = (runBatch [widgetItem] ⟨[], none⟩ true true widgetAlerts sendAll
          (fxWidget 18) 7).parts ∧
    (runBatch (runBatch [widgetItem] ⟨[], none⟩ true true widgetAlerts sendAll
        (fxWidget 18) 7).parts
      (runBatch [widgetItem] ⟨[], none⟩ true true widgetAlerts sendAll
        (fxWidget 18) 7).prices
      true true widgetAlerts sendAll (fxWidget 18) 8).partsWritten = false ∧
    (runBatch (runBatch [widgetItem] ⟨[], none⟩ true true widgetAlerts sendAll
        (fxWidget 18) 7).parts
      (runBatch [widgetItem] ⟨[], none⟩ true true widgetAlerts sendAll
        (fxWidget 18) 7).prices
      true true widgetAlerts sendAll (fxWidget 18) 8).sentinel = false ∧
    ∀ e ∈ buildProductList
        (runBatch [widgetItem] ⟨[], none⟩ true true widgetAlerts sendAll
          (fxWidget 18) 7).parts
        (runBatch [widgetItem] ⟨[], none⟩ true true widgetAlerts sendAll
          (fxWidget 18) 7).prices, ∀ hrec : WorkEntry,
      (historyIndex (runBatch [widgetItem] ⟨[], none⟩ true true widgetAlerts
          sendAll (fxWidget 18) 7).prices.products).lookup (e.asin.getD e.url)
        = some hrec →
      e.price = hrec.price ∧ e.priceDisplay = hrec.priceDisplay :=
  c6_second_run_idempotent [widgetItem] ⟨[], none⟩ true true widgetAlerts sendAll
    (fxWidget 18) 7 true true widgetAlerts sendAll (fxWidget 18) 8
    (runBatch [widgetItem] ⟨[], none⟩ true true widgetAlerts sendAll
      (fxWidget 18) 7).parts
    (runBatch [widgetItem] ⟨[], none⟩ true true widgetAlerts sendAll
      (fxWidget 18) 7).prices
    rfl rfl (by with_unfolding_all decide)

/-- C7: a fetch failure (timeout, network error or non-2xx, all modelled as
the fetch throwing) leaves the worklist entry completely unchanged — price,
display, `lastChecked` and `lastChanged` keep their prior values — the entry
is not counted as changed, the loop still processes every product, and the
job's exit code is 0. -/
theorem c7_fetch_failure_entry_unchanged (hk : Bool) (so : Nat → Bool)
    (fx : String → FetchOutcome) (now : Nat) (e : WorkEntry)
    (db? : Option (List Alert)) (l : List WorkEntry)
    (partsData : List PartsItem) (pricesFile : Option HistoryFile)
    (hdb : Bool) (db0 : List Alert) (hf : fx e.url = .fetchFail) :
    checkProduct hk so fx now e db? = ⟨e, false, db?, [], 0⟩ ∧
    (runChecks hk so fx now l db?).processed.length = l.length ∧
    (runJob (some partsData) pricesFile hk hdb db0 so fx now).exitCode = 0 :=
  ⟨checkProduct_fetchFail hk so fx now e db? hf,
   runChecks_length hk so fx now l db?, rfl⟩

/-- C7 witness: every fetch fails; the widget entry is returned untouched. -/
theorem c7_witness :
    checkProduct true sendAll (fun _ => .fetchFail) 7 widgetEntry
        (some widgetAlerts)
      = ⟨widgetEntry, false, some widgetAlerts, [], 0⟩ ∧
    (runChecks true sendAll (fun _ => .fetchFail) 7 [widgetEntry]
        (some widgetAlerts)).processed.length = [widgetEntry].length ∧
    (runJob (some [widgetItem]) none true true widgetAlerts sendAll
        (fun _ => .fetchFail) 7).exitCode = 0 :=
  c7_fetch_failure_entry_unchanged true sendAll (fun _ => .fetchFail) 7
    widgetEntry (some widgetAlerts) [widgetEntry] [widgetItem] none true
    widgetAlerts (by with_unfolding_all decide)

/-- C8: during fan-out, a subscription's `last_notified` is set to the run
timestamp exactly when that subscription matched the drop and its own send
succeeded, and every matching subscription is attempted in query order no
matter which sends fail. -/
theorem c8_lastNotified_iff_send_success (p : WorkEntry) (oldP newP pct : ℚ)
    (db : List Alert) (so : Nat → Bool) (now : Nat)
    (hids : (db.map Alert.id).Nodup) :
    (notifySubscribers true p oldP newP pct db so now).db
      = db.map (fun a =>
          if (a.product_id == p.asin.getD p.name && a.active
              && decide (a.threshold_pct ≤ pct * 100)) && so a.id
          then { a with last_notified := some now } else a) ∧
    (notifySubscribers true p oldP newP pct db so now).attempted.map Email.alertId
      = (matchingSubs db (p.asin.getD p.name) (pct * 100)).map Alert.id := by
  refine ⟨notifySubscribers_db p oldP newP pct db so now hids, ?_⟩
  rw [notifySubscribers_attempted, List.map_map]
  rfl

/-- C8 witness: both subscriptions match a 10% drop; the send to id 1 fails
and the send to id 2 succeeds, so only id 2 gets `last_notified` while both
were attempted. -/
theorem c8_witness :
    (notifySubscribers true widgetEntry 20 18 0.1 alertsPair sendOnly2 7).db
      = alertsPair.map (fun a =>
          if (a.product_id == widgetEntry.asin.getD widgetEntry.name && a.active
              && decide (a.threshold_pct ≤ (0.1 : ℚ) * 100)) && sendOnly2 a.id
          then { a with last_notified := some 7 } else a) ∧
    (notifySubscribers true widgetEntry 20 18 0.1 alertsPair sendOnly2
        7).attempted.map Email.alertId
      = (matchingSubs alertsPair (widgetEntry.asin.getD widgetEntry.name)
          ((0.1 : ℚ) * 100)).map Alert.id :=
  c8_lastNotified_iff_send_success widgetEntry 20 18 0.1 alertsPair sendOnly2 7
    (by with_unfolding_all decide)

/-- C9: with no delivery credential configured, the notification step is a
no-op returning zero sent and zero attempted and leaving the subscription
table alone, and the batch's catalog write, history write, sentinel and
reconciliation count are exactly those of a run with the credential set; no
email is ever attempted. -/
theorem c9_no_credential_noop (p : WorkEntry) (oldP newP pct : ℚ)
    (db : List Alert) (so : Nat → Bool) (now : Nat) (partsData : List PartsItem)
    (existingPrices : HistoryFile) (hdb : Bool) (db0 : List Alert)
    (fx : String → FetchOutcome) :
    notifySubscribers false p oldP newP pct db so now = ⟨db, [], 0⟩ ∧
    (runBatch partsData existingPrices false hdb db0 so fx now).parts
      = (runBatch partsData existingPrices true hdb db0 so fx now).parts ∧
    (runBatch partsData existingPrices false hdb db0 so fx now).prices
      = (runBatch partsData existingPrices true hdb db0 so fx now).prices ∧
    (runBatch partsData existingPrices false hdb db0 so fx now).sentinel
      = (runBatch partsData existingPrices true hdb db0 so fx now).sentinel ∧
    (runBatch partsData existingPrices false hdb db0 so fx now).partsWritten
      = (runBatch partsData existingPrices true hdb db0 so fx now).partsWritten ∧
    (runBatch partsData existingPrices false hdb db0 so fx now).syncedCount
      = (runBatch partsData existingPrices true hdb db0 so fx now).syncedCount ∧
    (runBatch partsData existingPrices false hdb db0 so fx now).emails = [] ∧
    (runBatch partsData existingPrices false hdb db0 so fx now).db
      = (if hdb then some db0 else none) := by
  have hcore := runChecks_core_eq false true so so fx now
    (buildProductList partsData existingPrices)
    (if hdb then some db0 else none) (if hdb then some db0 else none)
  have hnk := runChecks_noKey so fx now (buildProductList partsData existingPrices)
    (if hdb then some db0 else none)
  have hmain : runBatch partsData existingPrices false hdb db0 so fx now
      = { runBatch partsData existingPrices true hdb db0 so fx now with
          db := (if hdb then some db0 else none), emails := [] } := by
    simp only [runBatch]
    rw [hcore.1, hcore.2, hnk.1, hnk.2]
    by_cases hnil : (runChecks true so fx now
        (buildProductList partsData existingPrices)
        (if hdb then some db0 else none)).changed.isEmpty = true
    · rw [if_pos hnil, if_pos hnil]
    · rw [if_neg hnil, if_neg hnil]
  exact ⟨rfl, by rw [hmain], by rw [hmain], by rw [hmain], by rw [hmain],
    by rw [hmain], by rw [hmain], by rw [hmain]⟩

theorem checkProduct_drop_emails (so : Nat → Bool) (fx : String → FetchOutcome)
    (now : Nat) (e : WorkEntry) (db0 : List Alert) (V : ℚ)
    (hf : fx e.url = .page (some V)) (hV : 0 < V) (hlt : V < e.price)
    (hbig : 0.05 < |V - e.price| / e.price) :
    (checkProduct true so fx now e (some db0)).emails
      = (matchingSubs db0 (e.asin.getD e.name) (|V - e.price| / e.price * 100)).map
          (fun s => ⟨s.id, s.email, e.name, e.price, V,
            |V - e.price| / e.price * 100, buildBuyUrl e.url⟩) := by
  simp only [checkProduct, hf]
  rw [if_pos hV, if_pos hbig, if_pos hlt]
  exact notifySubscribers_attempted _ e.price V (|V - e.price| / e.price) db0 so now

/-- C10: for any product in the worklist whose extracted price is lower than
the cached price with a percent change above the 80% cap, the notification
fan-out is still invoked for that product — its check emails exactly the
matching subscribers the new price and counts the entry as changed, and the
run's attempted-email stream contains that product's block — while the
reliability filter of reconciliation then discards the very same change, so
the catalog the run writes is the one produced from the other detected
changes alone: subscribers are told a price that is never written to the
catalog. -/
theorem c10_notify_before_cap (partsData : List PartsItem)
    (existingPrices : HistoryFile) (e : WorkEntry) (V : ℚ)
    (d db0 : List Alert) (so : Nat → Bool) (fx : String → FetchOutcome)
    (now : Nat) (eU : WorkEntry)
    (heU : eU = { e with
      price := V
      priceDisplay := formatPartsPrice V
      lastChanged := some now
      pct := some (|V - e.price| / e.price)
      lastChecked := some now })
    (he : e ∈ buildProductList partsData existingPrices)
    (hf : fx e.url = .page (some V)) (hV : 0 < V) (hlt : V < e.price)
    (hcap : 0.80 < |V - e.price| / e.price) :
    (checkProduct true so fx now e (some d)).emails
      = (matchingSubs d (e.asin.getD e.name) (|V - e.price| / e.price * 100)).map
          (fun s => ⟨s.id, s.email, e.name, e.price, V,
            |V - e.price| / e.price * 100, buildBuyUrl e.url⟩) ∧
    (checkProduct true so fx now e (some d)).changed = true ∧
    (∃ (d1 : List Alert) (pre post : List Email),
      (runBatch partsData existingPrices true true db0 so fx now).emails
        = pre ++ (matchingSubs d1 (e.asin.getD e.name)
              (|V - e.price| / e.price * 100)).map
            (fun s => ⟨s.id, s.email, e.name, e.price, V,
              |V - e.price| / e.price * 100, buildBuyUrl e.url⟩) ++ post) ∧
    eU ∉ reliableOf
      (runBatch partsData existingPrices true true db0 so fx now).changedProducts ∧
    (runBatch partsData existingPrices true true db0 so fx now).parts
      = (syncBackToParts partsData
          ((runBatch partsData existingPrices true true db0 so fx
              now).changedProducts.filter
            fun p => decide (p ≠ eU))).1 := by
  have hbig : (0.05 : ℚ) < |V - e.price| / e.price := lt_trans (by norm_num) hcap
  have hpct : eU.pct = some (|V - e.price| / e.price) := by rw [heU]
  refine ⟨checkProduct_drop_emails so fx now e d V hf hV hlt hbig,
    (checkProduct_changed true so fx now e (some d) V hf hV hbig).2, ?_, ?_, ?_⟩
  · have hem_run : (runBatch partsData existingPrices true true db0 so fx
        now).emails
        = (runChecks true so fx now (buildProductList partsData existingPrices)
            (some db0)).emails := by
      simp only [runBatch, if_true]
      by_cases hnil : (runChecks true so fx now
          (buildProductList partsData existingPrices)
          (some db0)).changed.isEmpty = true
      · rw [if_pos hnil]
      · rw [if_neg hnil]
    obtain ⟨d1, pre, post, heq⟩ := runChecks_emails_at true so fx now e
      (buildProductList partsData existingPrices) db0 he
    refine ⟨d1, pre, post, ?_⟩
    rw [hem_run, heq, checkProduct_drop_emails so fx now e d1 V hf hV hlt hbig]
  · intro hmemrel
    have hpred := (List.mem_filter.mp hmemrel).2
    simp only [hpct] at hpred
    rw [decide_eq_true hcap] at hpred
    simp at hpred
  · have hkey := syncParts_filter_ne partsData
      (runChecks true so fx now (buildProductList partsData existingPrices)
        (some db0)).changed
      eU (|V - e.price| / e.price) hpct hcap
    simp only [runBatch, if_true]
    by_cases hnil : (runChecks true so fx now
        (buildProductList partsData existingPrices)
        (some db0)).changed.isEmpty = true
    · rw [if_pos hnil] at hkey ⊢
      exact hkey
    · rw [if_neg hnil] at hkey ⊢
      exact hkey

/-- C2 witness: the widget's extractor returns $95 against a cached $20
(a 375% change): the history store records the 95 entry, the reliability
filter discards it, and the catalog write ignores it. -/
theorem c2_witness :
    widgetEntryAt 95 ∈ (runBatch [widgetItem] ⟨[], none⟩ true true widgetAlerts
      sendAll (fxWidget 95) 7).prices.products ∧
    widgetEntryAt 95 ∉ reliableOf (runBatch [widgetItem] ⟨[], none⟩ true true
      widgetAlerts sendAll (fxWidget 95) 7).changedProducts ∧
    (runBatch [widgetItem] ⟨[], none⟩ true true widgetAlerts sendAll
        (fxWidget 95) 7).parts
      = (syncBackToParts [widgetItem]
          ((runBatch [widgetItem] ⟨[], none⟩ true true widgetAlerts sendAll
              (fxWidget 95) 7).changedProducts.filter
            fun p => decide (p ≠ widgetEntryAt 95))).1 :=
  c2_implausible_change_history_not_catalog [widgetItem] ⟨[], none⟩ widgetEntry
    95 true true widgetAlerts sendAll (fxWidget 95) 7 (widgetEntryAt 95)
    (by with_unfolding_all decide) (by with_unfolding_all decide)
    (by with_unfolding_all decide) (by with_unfolding_all decide)
    (by with_unfolding_all decide)

/-- C10 witness: the widget's extractor returns $2 against a cached $20 (a
90% drop, above the cap): its check emails both subscribers the $2 price and
counts the change, the run's email stream carries that block, yet the
reliability filter drops the change and the catalog write ignores it. -/
theorem c10_witness :
    (checkProduct true sendAll (fxWidget 2) 7 widgetEntry
        (some widgetAlerts)).emails
      = (matchingSubs widgetAlerts (widgetEntry.asin.getD widgetEntry.name)
          (|(2 : ℚ) - widgetEntry.price| / widgetEntry.price * 100)).map
          (fun s => ⟨s.id, s.email, widgetEntry.name, widgetEntry.price, 2,
            |(2 : ℚ) - widgetEntry.price| / widgetEntry.price * 100,
            buildBuyUrl widgetEntry.url⟩) ∧
    (checkProduct true sendAll (fxWidget 2) 7 widgetEntry
        (some widgetAlerts)).changed = true ∧
    (∃ (d1 : List Alert) (pre post : List Email),
      (runBatch [widgetItem] ⟨[], none⟩ true true widgetAlerts sendAll
          (fxWidget 2) 7).emails
        = pre ++ (matchingSubs d1 (widgetEntry.asin.getD widgetEntry.name)
              (|(2 : ℚ) - widgetEntry.price| / widgetEntry.price * 100)).map
            (fun s => ⟨s.id, s.email, widgetEntry.name, widgetEntry.price, 2,
              |(2 : ℚ) - widgetEntry.price| / widgetEntry.price * 100,
              buildBuyUrl widgetEntry.url⟩) ++ post) ∧
    widgetEntryAt 2 ∉ reliableOf (runBatch [widgetItem] ⟨[], none⟩ true true
      widgetAlerts sendAll (fxWidget 2) 7).changedProducts ∧
    (runBatch [widgetItem] ⟨[], none⟩ true true widgetAlerts sendAll
        (fxWidget 2) 7).parts
      = (syncBackToParts [widgetItem]
          ((runBatch [widgetItem] ⟨[], none⟩ true true widgetAlerts sendAll
              (fxWidget 2) 7).changedProducts.filter
            fun p => decide (p ≠ widgetEntryAt 2))).1 :=
  c10_notify_before_cap [widgetItem] ⟨[], none⟩ widgetEntry 2 widgetAlerts
    widgetAlerts sendAll (fxWidget 2) 7 (widgetEntryAt 2)
    (by with_unfolding_all decide) (by with_unfolding_all decide)
    (by with_unfolding_all decide) (by with_unfolding_all decide)
    (by with_unfolding_all decide) (by with_unfolding_all decide)

end NCMesh
